import Mathlib

/-!
Verification development for the cluster-metadata broker and slot-migration
engine (undermoon).  The definitions below are a shallow embedding of the
code in src/common/utils.rs and src/migration/delete_keys.rs; components of
the repository that are only declared (not included) among the sources are
modelled from the specification and marked as such in their doc comments.
-/

/-- Byte strings are modelled as lists of natural numbers below 256
(each byte is reduced mod 256 where it is consumed). -/
abbrev Bytes := List Nat

/-- Bytes of a Rust String via into_bytes, restricted to the ASCII
commands and decimal digits used by the code. -/
def strBytes (s : String) : Bytes := s.data.map Char.toNat

/-- One shift-and-xor round of CRC16 with polynomial 0x1021 (XMODEM),
state kept below 2^16. -/
def crc16Round (c : Nat) : Nat :=
  if c &&& 32768 ≠ 0 then ((c <<< 1) ^^^ 4129) % 65536 else (c <<< 1) % 65536

/-- Feed one byte (taken mod 256) into the CRC16/XMODEM state: xor into
the high byte, then eight polynomial rounds. -/
def crc16Byte (c : Nat) (b : Nat) : Nat :=
  (List.range 8).foldl (fun acc _ => crc16Round acc) (c ^^^ ((b % 256) <<< 8))

/-- CRC16/XMODEM of a whole byte string, initial value 0
(State::&lt;XMODEM&gt;::calculate in the crc16 crate used by utils.rs). -/
def crc16_xmodem (key : Bytes) : Nat := key.foldl crc16Byte 0

/-- Number of hash slots (src/common/utils.rs line 72). -/
def SLOT_NUM : Nat := 16384

/-- Slot of a key (src/common/utils.rs get_slot): CRC16/XMODEM of the whole
key modulo SLOT_NUM; no hash-tag extraction (the TODO in the source). -/
def get_slot (key : Bytes) : Nat := crc16_xmodem key % SLOT_NUM

/-- Client-side error taxonomy used by delete_keys.rs.  The protocol module
is not among the sources; the variants used by the visible code are
InvalidReply plus connection-level failures. -/
inductive RedisClientError where
  | InvalidReply : RedisClientError
  | ConnectionError : RedisClientError
deriving DecidableEq, Repr

/-- Migration error taxonomy (migration/task.rs is not among the sources;
modelled from the spec: Canceled plus errors surfaced from the client). -/
inductive MigrationError where
  | Canceled : MigrationError
  | RedisClient : RedisClientError → MigrationError
deriving DecidableEq, Repr

/-- RESP values, as far as delete_keys.rs observes them (the protocol codec
is out of scope; the shape follows the standard RESP variants used by the
source: error, simple string, integer, bulk string, array). -/
inductive Resp where
  | Error : Bytes → Resp
  | Simple : Bytes → Resp
  | Integer : Bytes → Resp
  | Bulk : Option Bytes → Resp
  | Arr : Option (List Resp) → Resp
deriving Repr

/-- Slot range with inclusive bounds (common/cluster.rs is not among the
sources; the field named end in the source is called stop here because end
is a Lean keyword). -/
structure SlotRange where
  start : Nat
  stop : Nat
deriving DecidableEq, Repr

/-- Array of slot ranges as used by DeleteKeysTask: the pairs
(range.start, range.end) built in DeleteKeysTask::new. -/
structure SlotRangeArray where
  ranges : List (Nat × Nat)
deriving DecidableEq, Repr

/-- Modelled from the spec: SlotRangeArray::is_key_inside (migration/task.rs
is not among the sources).  It computes slot(key) and checks containment
against all ranges, bounds inclusive. -/
def SlotRangeArray.is_key_inside (a : SlotRangeArray) (key : Bytes) : Bool :=
  a.ranges.any (fun r => decide (r.1 ≤ get_slot key ∧ get_slot key ≤ r.2))

/-- Parsed reply of a SCAN command. -/
structure ScanResponse where
  next_index : Nat
  keys : List Bytes
deriving DecidableEq, Repr

/-- A key element of a SCAN reply must be a non-nil bulk string. -/
def respToKey : Resp → Option Bytes
  | Resp.Bulk (some k) => some k
  | _ => none

/-- Decimal parse of an unsigned integer from ASCII digit bytes. -/
def parseDecimal (bs : Bytes) : Option Nat :=
  if bs = [] then none
  else if bs.all (fun b => 48 ≤ b && b ≤ 57) then
    some (bs.foldl (fun acc b => acc * 10 + (b - 48)) 0)
  else none

/-- Modelled from the spec: ScanResponse::parse_scan (migration/task.rs is
not among the sources).  The reply is parsed into (next_cursor, keys): an
array of a bulk-string decimal cursor and an array of bulk-string keys; any
other shape yields none. -/
def ScanResponse.parse_scan (resp : Resp) : Option ScanResponse :=
  match resp with
  | Resp.Arr (some [Resp.Bulk (some cursorBytes), Resp.Arr (some keyResps)]) =>
    match parseDecimal cursorBytes, keyResps.mapM respToKey with
    | some next_index, some keys => some { next_index := next_index, keys := keys }
    | _, _ => none
  | _ => none

theorem get_slot_lt : ∀ key : Bytes, get_slot key < SLOT_NUM := by
  intro key
  exact Nat.mod_lt _ (by decide)

/-- A client, as delete_keys.rs uses it: execute_single sends one command
(a list of byte strings) and yields a reply or a client error.  It is
modelled as a function from the command to the outcome. -/
abbrev RedisClientModel := List Bytes → Except RedisClientError Resp

/-- The SCAN command built in scan_and_delete_keys_impl
(delete_keys.rs lines 168-174): SCAN &lt;cursor&gt; COUNT &lt;scan_count&gt;,
each part converted to bytes. -/
def scanCmd (index scan_count : Nat) : List Bytes :=
  [strBytes "SCAN", strBytes (Nat.repr index),
   strBytes "COUNT", strBytes (Nat.repr scan_count)]

/-- The DEL command built in scan_and_delete_keys_impl
(delete_keys.rs lines 189-190): DEL followed by the filtered keys. -/
def delCmd (keys : List Bytes) : List Bytes := strBytes "DEL" :: keys

/-- One scan-and-delete attempt (delete_keys.rs scan_and_delete_keys_impl,
lines 162-200).  Returns the list of requests issued to the client, in
order, together with the result: scan, parse, filter out keys whose slot is
inside the retained ranges, and, only when the filtered list is non-empty,
one batched DEL.  An unparsable scan reply and an error-typed DEL reply
both fail the attempt with InvalidReply. -/
def scan_and_delete_keys_impl (slot_ranges : SlotRangeArray) (index : Nat)
    (scan_count : Nat) (client : RedisClientModel) :
    List (List Bytes) × Except RedisClientError (SlotRangeArray × Nat) :=
  let cmd := scanCmd index scan_count
  match client cmd with
  | Except.error e => ([cmd], Except.error e)
  | Except.ok resp =>
    match ScanResponse.parse_scan resp with
    | none => ([cmd], Except.error RedisClientError.InvalidReply)
    | some sr =>
      let keys := sr.keys.filter (fun k => ! slot_ranges.is_key_inside k)
      if keys.isEmpty then ([cmd], Except.ok (slot_ranges, sr.next_index))
      else
        match client (delCmd keys) with
        | Except.error e => ([cmd, delCmd keys], Except.error e)
        | Except.ok (Resp.Error _) =>
          ([cmd, delCmd keys], Except.error RedisClientError.InvalidReply)
        | Except.ok _ => ([cmd, delCmd keys], Except.ok (slot_ranges, sr.next_index))

/-- Migration configuration values: delete_count is the scan batch size,
delete_interval the backoff delay in microseconds. -/
structure MigrationConfigVal where
  delete_count : Nat
  delete_interval : Nat
deriving DecidableEq, Repr

/-- Modelled from the spec: AtomicMigrationConfig (common/config.rs is not
among the sources).  A shared, atomically updatable configuration cell,
modelled as the time-indexed sequence of its values: reading at time i
yields the value current at time i. -/
def AtomicMigrationConfig : Type := Nat → MigrationConfigVal

/-- Reading delete_count from the shared cell at a given time. -/
def AtomicMigrationConfig.get_delete_count (c : AtomicMigrationConfig)
    (time : Nat) : Nat := (c time).delete_count

/-- Reading delete_interval from the shared cell at a given time. -/
def AtomicMigrationConfig.get_delete_interval (c : AtomicMigrationConfig)
    (time : Nat) : Nat := (c time).delete_interval

/-- The scan_count captured by gen_future (delete_keys.rs line 144): the
configuration is read once, at construction time 0. -/
def gen_future_scan_count (config : AtomicMigrationConfig) : Nat :=
  config.get_delete_count 0

/-- The interval captured by gen_future (delete_keys.rs line 145): read
once at construction time 0. -/
def gen_future_interval (config : AtomicMigrationConfig) : Nat :=
  config.get_delete_interval 0

/-- The scan_count the step closure of gen_future uses on iteration i
(delete_keys.rs line 152): the closure move-captures the value read at
construction, so every iteration uses that same value. -/
def scan_count_used_at_iteration (config : AtomicMigrationConfig)
    (i : Nat) : Nat := gen_future_scan_count config

/-- The backoff interval in effect for iteration i of a running task:
gen_future passes the captured value to keep_connecting_and_sending once
(delete_keys.rs lines 147-153). -/
def interval_used_at_iteration (config : AtomicMigrationConfig)
    (i : Nat) : Nat := gen_future_interval config

/-- The result mapping at the end of gen_future (delete_keys.rs lines
155-158): the auto-drop wrapper yields none when its stop handle was
dropped, and some of the inner result when the keep-connecting loop ran to
completion. -/
def gen_future_outcome (opt : Option Unit) : Except MigrationError Unit :=
  match opt with
  | some _ => Except.ok ()
  | none => Except.error MigrationError.Canceled

/-- Modelled from the spec: the states at which keep_connecting_and_sending
(common/resp_execution.rs is not among the sources) invokes the step
function, bounded by fuel: on success it continues with the new state, on
error it retries with the same state after the backoff delay. -/
def driverStates {σ ε : Type} (fuel : Nat) (s : σ)
    (step : σ → Except ε σ) : List σ :=
  match fuel with
  | 0 => []
  | Nat.succ n =>
    s :: (match step s with
          | Except.ok s2 => driverStates n s2 step
          | Except.error _ => driverStates n s step)

/-- Model of DeleteKeysTask (delete_keys.rs lines 102-107): the address,
the slot ranges, and the single-use future slot (AtomicOption).  The future
is represented by the initial loop data gen_future builds for it
(delete_keys.rs line 143): the slot ranges paired with cursor 0. -/
structure DeleteKeysTask where
  address : String
  slot_ranges : SlotRangeArray
  fut : Option (SlotRangeArray × Nat)
deriving DecidableEq, Repr

/-- DeleteKeysTask::new (delete_keys.rs lines 110-131): the ranges are
converted to (start, end) pairs and the future slot is filled with the
initial data (slot_ranges, 0). -/
def DeleteKeysTask.new (address : String) (slot_ranges : List SlotRange) :
    DeleteKeysTask :=
  let sra : SlotRangeArray :=
    { ranges := slot_ranges.map (fun r => (r.start, r.stop)) }
  { address := address, slot_ranges := sra, fut := some (sra, 0) }

/-- DeleteKeysTask::start (delete_keys.rs lines 133-135): atomically take
the future out of the slot; state passing returns the taken value together
with the task afterwards. -/
def DeleteKeysTask.start (t : DeleteKeysTask) :
    Option (SlotRangeArray × Nat) × DeleteKeysTask :=
  (t.fut, { t with fut := none })

/-- DeleteKeysTask::get_address (delete_keys.rs lines 210-212). -/
def DeleteKeysTask.get_address (t : DeleteKeysTask) : String := t.address

/-- Opaque database name (common/cluster.rs DBName), identified by value. -/
abbrev DBName := String

/-- Association-list lookup with HashMap get semantics (keys are unique in
every map produced by the code, so the first match is the match). -/
def lookupAL {α β : Type} [DecidableEq α] : List (α × β) → α → Option β
  | [], _ => none
  | (k, v) :: rest, k2 => if k = k2 then some v else lookupAL rest k2

/-- Association-list insert with HashMap insert semantics: replace the
binding if the key is present, append it otherwise. -/
def insertAL {α β : Type} [DecidableEq α] : List (α × β) → α → β → List (α × β)
  | [], k, v => [(k, v)]
  | (k1, v1) :: rest, k, v =>
    if k1 = k then (k, v) :: rest else (k1, v1) :: insertAL rest k v

/-- The nested map held by DeleteKeysTaskMap (delete_keys.rs lines 18-20):
DBName to node address to shared task. -/
abbrev TaskMap := List (DBName × List (String × DeleteKeysTask))

/-- Insert into the nested map, as entry(db).or_insert_with(HashMap::new)
followed by insert(address, task) does in the source. -/
def insert2 (m : TaskMap) (db : DBName) (addr : String)
    (t : DeleteKeysTask) : TaskMap :=
  insertAL m db (insertAL ((lookupAL m db).getD []) addr t)

/-- Lookup in the nested map. -/
def lookup2 (m : TaskMap) (db : DBName) (addr : String) :
    Option DeleteKeysTask :=
  (lookupAL m db).bind (fun nodes => lookupAL nodes addr)

/-- Modelled from the spec: HostDBMap (common/db.rs is not among the
sources).  update_from_old_task_map only consults which (db, address) pairs
the new ownership view contains, so it is modelled as db to the list of
node addresses present. -/
structure HostDBMap where
  db_map : List (DBName × List String)

/-- HostDBMap::get_map. -/
def HostDBMap.get_map (m : HostDBMap) : List (DBName × List String) :=
  m.db_map

/-- Inner loop of the copy phase of update_from_old_task_map
(delete_keys.rs lines 61-69): carry over each task of one database whose
address is still present in the new ownership view, by shared reference. -/
def copyNodes (db : DBName) (new_nodes : List String)
    (nodes : List (String × DeleteKeysTask)) (acc : TaskMap) : TaskMap :=
  nodes.foldl
    (fun acc2 node =>
      if node.1 ∈ new_nodes then insert2 acc2 db node.1 node.2 else acc2)
    acc

/-- Outer loop of the copy phase of update_from_old_task_map
(delete_keys.rs lines 56-70): databases absent from the new ownership view
are skipped entirely. -/
def copyOldTasksAux (local_db_map : HostDBMap) (old : TaskMap)
    (acc : TaskMap) : TaskMap :=
  old.foldl
    (fun acc2 entry =>
      match lookupAL local_db_map.get_map entry.1 with
      | none => acc2
      | some new_nodes => copyNodes entry.1 new_nodes entry.2 acc2)
    acc

/-- Inner loop of the add phase of update_from_old_task_map
(delete_keys.rs lines 74-86): for each address, create a fresh task,
insert it (overwriting any carried entry) and push it on the new-task
list. -/
def addNodes (db : DBName) (nodes : List (String × List SlotRange))
    (acc : TaskMap × List DeleteKeysTask) : TaskMap × List DeleteKeysTask :=
  nodes.foldl
    (fun acc2 node =>
      let task := DeleteKeysTask.new node.1 node.2
      (insert2 acc2.1 db node.1 task, acc2.2 ++ [task]))
    acc

/-- Outer loop of the add phase of update_from_old_task_map
(delete_keys.rs lines 73-87). -/
def addNewTasksAux (left : List (DBName × List (String × List SlotRange)))
    (acc : TaskMap × List DeleteKeysTask) : TaskMap × List DeleteKeysTask :=
  left.foldl (fun acc2 entry => addNodes entry.1 entry.2 acc2) acc

/-- DeleteKeysTaskMap::update_from_old_task_map (delete_keys.rs lines
45-95): copy forward the old tasks still present in the new ownership view,
then add a fresh task for every (db, address, slots) triple of
left_slots_after_change, returning the rebuilt map and the new tasks. -/
def update_from_old_task_map (old : TaskMap) (local_db_map : HostDBMap)
    (left : List (DBName × List (String × List SlotRange))) :
    TaskMap × List DeleteKeysTask :=
  addNewTasksAux left (copyOldTasksAux local_db_map old [], [])

/-- Cluster snapshot: the ownership mapping together with the global epoch
(spec section 3; the broker store is not among the sources). -/
structure ClusterSnapshot where
  epoch : Nat
  dbs : List (DBName × List (String × List SlotRange))
deriving Repr

/-- MetaStore error taxonomy re-exported by broker/mod.rs; the variants
relevant here come from the spec (sections 4.1 and 7). -/
inductive MetaStoreError where
  | StaleEpoch : MetaStoreError
  | InvalidTransition : MetaStoreError
deriving DecidableEq, Repr

/-- The metadata store holding the current snapshot. -/
structure MetaStore where
  snapshot : ClusterSnapshot
deriving Repr

/-- A mutation, applied to the ownership mapping of the snapshot. -/
abbrev Mutation :=
  List (DBName × List (String × List SlotRange)) →
  List (DBName × List (String × List SlotRange))

/-- Modelled from the spec: MetaStore::update (broker/store.rs is not among
the sources; broker/mod.rs only re-exports MetaStoreError).  Compare and
swap on the epoch: the mutation is accepted only when expected_epoch equals
the current epoch, in which case the mutated snapshot with epoch plus one
becomes current; otherwise the update fails with StaleEpoch and the store
is left unchanged. -/
def MetaStore.update (store : MetaStore) (expected_epoch : Nat)
    (mutation : Mutation) : Except MetaStoreError MetaStore :=
  if expected_epoch = store.snapshot.epoch then
    Except.ok
      { snapshot :=
          { epoch := store.snapshot.epoch + 1,
            dbs := mutation store.snapshot.dbs } }
  else
    Except.error MetaStoreError.StaleEpoch

theorem lookupAL_insertAL_self {α β : Type} [DecidableEq α]
    (m : List (α × β)) (k : α) (v : β) :
    lookupAL (insertAL m k v) k = some v := by
  induction m with
  | nil => simp [insertAL, lookupAL]
  | cons hd tl ih =>
    obtain ⟨k1, v1⟩ := hd
    by_cases h : k1 = k
    · simp [insertAL, h, lookupAL]
    · simp [insertAL, h, lookupAL, ih]

theorem lookupAL_insertAL_ne {α β : Type} [DecidableEq α]
    {m : List (α × β)} {k k2 : α} {v : β} (h : k ≠ k2) :
    lookupAL (insertAL m k v) k2 = lookupAL m k2 := by
  induction m with
  | nil => simp [insertAL, lookupAL, h]
  | cons hd tl ih =>
    obtain ⟨k1, v1⟩ := hd
    by_cases h1 : k1 = k
    · subst h1; simp [insertAL, lookupAL, h]
    · simp [insertAL, lookupAL, h1, ih]

theorem lookupAL_eq_none_of_not_mem {α β : Type} [DecidableEq α]
    {m : List (α × β)} {k : α} (h : k ∉ m.map Prod.fst) :
    lookupAL m k = none := by
  induction m with
  | nil => rfl
  | cons hd tl ih =>
    obtain ⟨k1, v1⟩ := hd
    simp only [List.map_cons, List.mem_cons] at h
    push_neg at h
    simp [lookupAL, Ne.symm h.1, ih h.2]

theorem lookup2_insert2_self (m : TaskMap) (db : DBName) (a : String)
    (t : DeleteKeysTask) : lookup2 (insert2 m db a t) db a = some t := by
  unfold lookup2 insert2
  rw [lookupAL_insertAL_self]
  simp [lookupAL_insertAL_self]

theorem lookup2_insert2_ne {m : TaskMap} {db db2 : DBName} {a a2 : String}
    {t : DeleteKeysTask} (h : db ≠ db2 ∨ a ≠ a2) :
    lookup2 (insert2 m db a t) db2 a2 = lookup2 m db2 a2 := by
  unfold lookup2 insert2
  by_cases hdb : db = db2
  · subst hdb
    rcases h with h | h
    · exact absurd rfl h
    · rw [lookupAL_insertAL_self]
      cases hm : lookupAL m db with
      | none => simp [hm, lookupAL_insertAL_ne h, lookupAL, h]
      | some nodes => simp [hm, lookupAL_insertAL_ne h]
  · rw [lookupAL_insertAL_ne hdb]

theorem copyNodes_nil (db : DBName) (ns : List String) (acc : TaskMap) :
    copyNodes db ns [] acc = acc := rfl

theorem copyNodes_cons (db : DBName) (ns : List String)
    (nd : String × DeleteKeysTask) (rest : List (String × DeleteKeysTask))
    (acc : TaskMap) :
    copyNodes db ns (nd :: rest) acc =
      copyNodes db ns rest
        (if nd.1 ∈ ns then insert2 acc db nd.1 nd.2 else acc) := rfl

theorem copyNodes_other_db {db db2 : DBName} {ns : List String}
    {nodes : List (String × DeleteKeysTask)} {a2 : String}
    (h : db ≠ db2) (acc : TaskMap) :
    lookup2 (copyNodes db ns nodes acc) db2 a2 = lookup2 acc db2 a2 := by
  induction nodes generalizing acc with
  | nil => rfl
  | cons nd rest ih =>
    rw [copyNodes_cons]
    by_cases hm : nd.1 ∈ ns
    · rw [if_pos hm, ih, lookup2_insert2_ne (Or.inl h)]
    · rw [if_neg hm, ih]

theorem copyNodes_not_found {db : DBName} {ns : List String}
    {nodes : List (String × DeleteKeysTask)} {a : String}
    (h : lookupAL nodes a = none) (acc : TaskMap) :
    lookup2 (copyNodes db ns nodes acc) db a = lookup2 acc db a := by
  induction nodes generalizing acc with
  | nil => rfl
  | cons nd rest ih =>
    obtain ⟨a1, t1⟩ := nd
    by_cases h1 : a1 = a
    · simp [lookupAL, h1] at h
    · simp only [lookupAL, h1, if_false, if_neg h1] at h
      rw [copyNodes_cons]
      by_cases hm : a1 ∈ ns
      · simp only [if_pos hm]
        rw [ih h, lookup2_insert2_ne (Or.inr h1)]
      · simp only [if_neg hm]
        exact ih h acc

theorem copyNodes_not_member {db : DBName} {ns : List String}
    {nodes : List (String × DeleteKeysTask)} {a : String}
    (h : a ∉ ns) (acc : TaskMap) :
    lookup2 (copyNodes db ns nodes acc) db a = lookup2 acc db a := by
  induction nodes generalizing acc with
  | nil => rfl
  | cons nd rest ih =>
    rw [copyNodes_cons]
    by_cases hm : nd.1 ∈ ns
    · have h1 : nd.1 ≠ a := fun he => h (he ▸ hm)
      rw [if_pos hm, ih, lookup2_insert2_ne (Or.inr h1)]
    · rw [if_neg hm, ih]

theorem copyNodes_found {db : DBName} {ns : List String}
    {nodes : List (String × DeleteKeysTask)} {a : String} {t : DeleteKeysTask}
    (hnd : (nodes.map Prod.fst).Nodup) (hm : a ∈ ns)
    (ht : lookupAL nodes a = some t) (acc : TaskMap) :
    lookup2 (copyNodes db ns nodes acc) db a = some t := by
  induction nodes generalizing acc with
  | nil => simp [lookupAL] at ht
  | cons nd rest ih =>
    obtain ⟨a1, t1⟩ := nd
    simp only [List.map_cons, List.nodup_cons] at hnd
    rw [copyNodes_cons]
    by_cases h1 : a1 = a
    · subst h1
      simp [lookupAL] at ht
      have hrest : lookupAL rest a1 = none :=
        lookupAL_eq_none_of_not_mem hnd.1
    
      simp only [if_pos hm]
      rw [copyNodes_not_found hrest, lookup2_insert2_self, ht]
    · simp only [lookupAL, if_neg h1] at ht
      by_cases hm1 : a1 ∈ ns
      · simp only [if_pos hm1]
        exact ih hnd.2 ht _
      · simp only [if_neg hm1]
        exact ih hnd.2 ht acc

theorem copyAux_cons (ldb : HostDBMap) (db1 : DBName)
    (nodes1 : List (String × DeleteKeysTask)) (rest : TaskMap)
    (acc : TaskMap) :
    copyOldTasksAux ldb ((db1, nodes1) :: rest) acc =
      copyOldTasksAux ldb rest
        (match lookupAL ldb.get_map db1 with
         | none => acc
         | some ns => copyNodes db1 ns nodes1 acc) := rfl

theorem copyAux_preserve {ldb : HostDBMap} {old : TaskMap}
    {db : DBName} {a : String}
    (H : ∀ nodes, (db, nodes) ∈ old → ∀ ns,
      lookupAL ldb.get_map db = some ns → a ∉ ns ∨ lookupAL nodes a = none)
    (acc : TaskMap) :
    lookup2 (copyOldTasksAux ldb old acc) db a = lookup2 acc db a := by
  induction old generalizing acc with
  | nil => rfl
  | cons e rest ih =>
    obtain ⟨db1, nodes1⟩ := e
    have Hrest : ∀ nodes, (db, nodes) ∈ rest → ∀ ns,
        lookupAL ldb.get_map db = some ns →
        a ∉ ns ∨ lookupAL nodes a = none :=
      fun nodes hm => H nodes (List.mem_cons_of_mem _ hm)
    rw [copyAux_cons]
    by_cases hdb : db1 = db
    · subst hdb
      cases hl : lookupAL ldb.get_map db1 with
      | none => exact ih Hrest acc
      | some ns =>
        rcases H nodes1 (List.mem_cons_self _ _) ns hl with hns | hnone
        · exact (ih Hrest _).trans (copyNodes_not_member hns acc)
        · exact (ih Hrest _).trans (copyNodes_not_found hnone acc)
    · cases hl : lookupAL ldb.get_map db1 with
      | none => exact ih Hrest acc
      | some ns => exact (ih Hrest _).trans (copyNodes_other_db hdb acc)

theorem copyAux_found {ldb : HostDBMap} {old : TaskMap} {db : DBName}
    {a : String} {nodes : List (String × DeleteKeysTask)} {ns : List String}
    {t : DeleteKeysTask}
    (hndOld : (old.map Prod.fst).Nodup)
    (hmem : (db, nodes) ∈ old)
    (hndNodes : (nodes.map Prod.fst).Nodup)
    (hl : lookupAL ldb.get_map db = some ns)
    (ha : a ∈ ns)
    (ht : lookupAL nodes a = some t)
    (acc : TaskMap) :
    lookup2 (copyOldTasksAux ldb old acc) db a = some t := by
  induction old generalizing acc with
  | nil => cases hmem
  | cons e rest ih =>
    obtain ⟨db1, nodes1⟩ := e
    simp only [List.map_cons, List.nodup_cons] at hndOld
    rcases List.mem_cons.mp hmem with he | hrest2
    · injection he with h1 h2
      subst h1
      subst h2
      rw [copyAux_cons, hl]
      have Hnone : ∀ nodes2, (db, nodes2) ∈ rest → ∀ ns2,
          lookupAL ldb.get_map db = some ns2 →
          a ∉ ns2 ∨ lookupAL nodes2 a = none := by
        intro nodes2 hm2 ns2 _
        exfalso
        apply hndOld.1
        exact List.mem_map_of_mem Prod.fst hm2
      exact (copyAux_preserve Hnone _).trans (copyNodes_found hndNodes ha ht acc)
    · rw [copyAux_cons]
      cases hl2 : lookupAL ldb.get_map db1 with
      | none => exact ih hndOld.2 hrest2 acc
      | some ns2 => exact ih hndOld.2 hrest2 _

theorem addNodes_cons (db : DBName) (nd : String × List SlotRange)
    (rest : List (String × List SlotRange))
    (acc : TaskMap × List DeleteKeysTask) :
    addNodes db (nd :: rest) acc =
      addNodes db rest
        (insert2 acc.1 db nd.1 (DeleteKeysTask.new nd.1 nd.2),
         acc.2 ++ [DeleteKeysTask.new nd.1 nd.2]) := rfl

theorem addNodes_map_other_db {db db2 : DBName}
    {nodes : List (String × List SlotRange)} {a2 : String}
    (h : db ≠ db2) (acc : TaskMap × List DeleteKeysTask) :
    lookup2 (addNodes db nodes acc).1 db2 a2 = lookup2 acc.1 db2 a2 := by
  induction nodes generalizing acc with
  | nil => rfl
  | cons nd rest ih =>
    rw [addNodes_cons, ih]
    exact lookup2_insert2_ne (Or.inl h)

theorem addNodes_map_not_found {db : DBName}
    {nodes : List (String × List SlotRange)} {a : String}
    (h : lookupAL nodes a = none) (acc : TaskMap × List DeleteKeysTask) :
    lookup2 (addNodes db nodes acc).1 db a = lookup2 acc.1 db a := by
  induction nodes generalizing acc with
  | nil => rfl
  | cons nd rest ih =>
    obtain ⟨a1, s1⟩ := nd
    by_cases h1 : a1 = a
    · simp [lookupAL, h1] at h
    · simp only [lookupAL, if_neg h1] at h
      rw [addNodes_cons, ih h]
      exact lookup2_insert2_ne (Or.inr h1)

theorem addNodes_map_found {db : DBName}
    {nodes : List (String × List SlotRange)} {a : String}
    {slots : List SlotRange}
    (hnd : (nodes.map Prod.fst).Nodup)
    (ht : lookupAL nodes a = some slots) (acc : TaskMap × List DeleteKeysTask) :
    lookup2 (addNodes db nodes acc).1 db a =
      some (DeleteKeysTask.new a slots) := by
  induction nodes generalizing acc with
  | nil => simp [lookupAL] at ht
  | cons nd rest ih =>
    obtain ⟨a1, s1⟩ := nd
    simp only [List.map_cons, List.nodup_cons] at hnd
    rw [addNodes_cons]
    by_cases h1 : a1 = a
    · subst h1
      simp [lookupAL] at ht
      have hrest : lookupAL rest a1 = none :=
        lookupAL_eq_none_of_not_mem hnd.1
      rw [addNodes_map_not_found hrest, lookup2_insert2_self, ht]
    · simp only [lookupAL, if_neg h1] at ht
      exact ih hnd.2 ht _

theorem addNodes_tasks_sub {db : DBName}
    {nodes : List (String × List SlotRange)} {x : DeleteKeysTask}
    (acc : TaskMap × List DeleteKeysTask) (h : x ∈ acc.2) :
    x ∈ (addNodes db nodes acc).2 := by
  induction nodes generalizing acc with
  | nil => exact h
  | cons nd rest ih =>
    rw [addNodes_cons]
    exact ih _ (List.mem_append_left _ h)

theorem addNodes_tasks_mem {db : DBName}
    {nodes : List (String × List SlotRange)} {a : String}
    {slots : List SlotRange}
    (ht : lookupAL nodes a = some slots) (acc : TaskMap × List DeleteKeysTask) :
    DeleteKeysTask.new a slots ∈ (addNodes db nodes acc).2 := by
  induction nodes generalizing acc with
  | nil => simp [lookupAL] at ht
  | cons nd rest ih =>
    obtain ⟨a1, s1⟩ := nd
    rw [addNodes_cons]
    by_cases h1 : a1 = a
    · subst h1
      simp [lookupAL] at ht
      subst ht
      exact addNodes_tasks_sub _ (List.mem_append_right _ (List.mem_singleton_self _))
    · simp only [lookupAL, if_neg h1] at ht
      exact ih ht _

theorem addAux_cons (e : DBName × List (String × List SlotRange))
    (rest : List (DBName × List (String × List SlotRange)))
    (acc : TaskMap × List DeleteKeysTask) :
    addNewTasksAux (e :: rest) acc = addNewTasksAux rest (addNodes e.1 e.2 acc) := rfl

theorem addAux_preserve {left : List (DBName × List (String × List SlotRange))}
    {db : DBName} {a : String}
    (H : ∀ nodes, (db, nodes) ∈ left → lookupAL nodes a = none)
    (acc : TaskMap × List DeleteKeysTask) :
    lookup2 (addNewTasksAux left acc).1 db a = lookup2 acc.1 db a := by
  induction left generalizing acc with
  | nil => rfl
  | cons e rest ih =>
    obtain ⟨db1, nodes1⟩ := e
    have Hrest : ∀ nodes, (db, nodes) ∈ rest → lookupAL nodes a = none :=
      fun nodes hm => H nodes (List.mem_cons_of_mem _ hm)
    rw [addAux_cons]
    by_cases hdb : db1 = db
    · subst hdb
      have hn : lookupAL nodes1 a = none := H nodes1 (List.mem_cons_self _ _)
      exact (ih Hrest _).trans (addNodes_map_not_found hn acc)
    · exact (ih Hrest _).trans (addNodes_map_other_db hdb acc)

theorem addAux_found {left : List (DBName × List (String × List SlotRange))}
    {db : DBName} {a : String} {nodes : List (String × List SlotRange)}
    {slots : List SlotRange}
    (hndLeft : (left.map Prod.fst).Nodup)
    (hmem : (db, nodes) ∈ left)
    (hndNodes : (nodes.map Prod.fst).Nodup)
    (ht : lookupAL nodes a = some slots)
    (acc : TaskMap × List DeleteKeysTask) :
    lookup2 (addNewTasksAux left acc).1 db a =
      some (DeleteKeysTask.new a slots) := by
  induction left generalizing acc with
  | nil => cases hmem
  | cons e rest ih =>
    obtain ⟨db1, nodes1⟩ := e
    simp only [List.map_cons, List.nodup_cons] at hndLeft
    rcases List.mem_cons.mp hmem with he | hrest2
    · injection he with h1 h2
      subst h1
      subst h2
      rw [addAux_cons]
      have Hnone : ∀ nodes2, (db, nodes2) ∈ rest → lookupAL nodes2 a = none := by
        intro nodes2 hm2
        exfalso
        apply hndLeft.1
        exact List.mem_map_of_mem Prod.fst hm2
      exact (addAux_preserve Hnone _).trans (addNodes_map_found hndNodes ht acc)
    · rw [addAux_cons]
      exact ih hndLeft.2 hrest2 _

theorem addAux_tasks_sub {left : List (DBName × List (String × List SlotRange))}
    {x : DeleteKeysTask}
    (acc : TaskMap × List DeleteKeysTask) (h : x ∈ acc.2) :
    x ∈ (addNewTasksAux left acc).2 := by
  induction left generalizing acc with
  | nil => exact h
  | cons e rest ih =>
    rw [addAux_cons]
    exact ih _ (addNodes_tasks_sub _ h)

theorem addAux_tasks_mem {left : List (DBName × List (String × List SlotRange))}
    {db : DBName} {a : String} {nodes : List (String × List SlotRange)}
    {slots : List SlotRange}
    (hmem : (db, nodes) ∈ left)
    (ht : lookupAL nodes a = some slots)
    (acc : TaskMap × List DeleteKeysTask) :
    DeleteKeysTask.new a slots ∈ (addNewTasksAux left acc).2 := by
  induction left generalizing acc with
  | nil => cases hmem
  | cons e rest ih =>
    rw [addAux_cons]
    rcases List.mem_cons.mp hmem with he | hrest2
    · subst he
      exact addAux_tasks_sub _ (addNodes_tasks_mem ht acc)
    · exact ih hrest2 _

set_option maxRecDepth 8192 in
/-- C9: for every key, get_slot equals CRC16/XMODEM over the whole key
modulo SLOT_NUM = 16384, so it is deterministic and always below 16384, and
no hash-tag extraction is performed (the entire key is hashed).  The last
conjunct validates the CRC16/XMODEM embedding on the standard check
vector 123456789. -/
theorem get_slot_spec : ∀ key : Bytes,
    get_slot key = crc16_xmodem key % 16384 ∧
    get_slot key < 16384 ∧
    SLOT_NUM = 16384 ∧
    crc16_xmodem (strBytes "123456789") = 12739 := by
  intro key
  refine ⟨rfl, Nat.mod_lt _ (by decide), rfl, by decide⟩

/-- C4: start yields the runnable future on the first call only; on a task
whose future slot has already been taken, start yields nothing, and the
same holds for every later call. -/
theorem task_start_exactly_once :
    ∀ (addr : String) (s : List SlotRange) (t : DeleteKeysTask),
      ((DeleteKeysTask.new addr s).start).1 =
        some ({ ranges := s.map (fun r => (r.start, r.stop)) }, 0) ∧
      ((t.start.2).start).1 = none ∧
      (((t.start.2).start.2).start).1 = none := by
  intro addr s t
  exact ⟨rfl, rfl, rfl⟩

/-- C6: the future of a DeleteKeysTask resolves to Canceled exactly when
the auto-drop wrapper reports cancellation (none), resolves to Ok exactly
when the inner keep-connecting loop ran to completion (some), and Canceled
is the only error outcome of this mapping. -/
theorem task_outcome_canceled_iff :
    ∀ opt : Option Unit,
      (gen_future_outcome opt = Except.error MigrationError.Canceled ↔
        opt = none) ∧
      (gen_future_outcome opt = Except.ok () ↔ opt = some ()) ∧
      (∀ e, gen_future_outcome opt = Except.error e →
        e = MigrationError.Canceled) := by
  intro opt
  cases opt with
  | none => simp [gen_future_outcome]
  | some u =>
    cases u
    simp [gen_future_outcome]

theorem task_outcome_canceled_iff_w :
    gen_future_outcome (none : Option Unit) =
      Except.error MigrationError.Canceled ∧
    gen_future_outcome (some ()) = Except.ok () :=
  ⟨((task_outcome_canceled_iff none).1).mpr rfl,
   (((task_outcome_canceled_iff (some ())).2).1).mpr rfl⟩

/-- Concrete configuration history used to refute the live-read claim: the
value changes between construction time 0 and iteration 1. -/
def cexConfig : AtomicMigrationConfig := fun t =>
  if t = 0 then { delete_count := 10, delete_interval := 100 }
  else { delete_count := 20, delete_interval := 200 }

/-- C5 counterexample: gen_future reads delete_count and delete_interval
once at construction (delete_keys.rs lines 144-145) and the step closure
captures them, so iteration 1 of a running task still uses the construction
time values even after the shared configuration has changed; the live-read
property is false. -/
theorem config_read_live_cex :
    scan_count_used_at_iteration cexConfig 1 = 10 ∧
    cexConfig.get_delete_count 1 = 20 ∧
    interval_used_at_iteration cexConfig 1 = 100 ∧
    cexConfig.get_delete_interval 1 = 200 ∧
    ¬ (∀ (config : AtomicMigrationConfig) (i : Nat),
        scan_count_used_at_iteration config i = config.get_delete_count i) := by
  refine ⟨rfl, rfl, rfl, rfl, fun h => ?_⟩
  have h1 := h cexConfig 1
  simp [scan_count_used_at_iteration, gen_future_scan_count,
    AtomicMigrationConfig.get_delete_count, cexConfig] at h1

/-- C5 amended: delete_count and delete_interval are read from the shared
configuration exactly once, when gen_future constructs the future of the
task, and those captured values are what every iteration of the running
task uses; a configuration change therefore only affects tasks created
afterwards. -/
theorem config_captured_at_construction :
    ∀ (config : AtomicMigrationConfig) (i : Nat),
      scan_count_used_at_iteration config i = config.get_delete_count 0 ∧
      interval_used_at_iteration config i = config.get_delete_interval 0 :=
  fun _ _ => ⟨rfl, rfl⟩

/-- C2: a MetaStore update is accepted exactly when the expected epoch
equals the current epoch; on acceptance the new snapshot carries epoch plus
one and becomes current; with any other (stale) expected epoch the update
fails with StaleEpoch and, the store value being untouched, the snapshot is
unchanged. -/
theorem metastore_update_cas :
    ∀ (store : MetaStore) (m : Mutation) (ee : Nat),
      ((∃ s2, store.update ee m = Except.ok s2) ↔
        ee = store.snapshot.epoch) ∧
      (∀ s2, store.update ee m = Except.ok s2 →
        s2.snapshot.epoch = store.snapshot.epoch + 1) ∧
      (ee ≠ store.snapshot.epoch →
        store.update ee m = Except.error MetaStoreError.StaleEpoch) := by
  intro store m ee
  refine ⟨⟨?_, ?_⟩, ?_, ?_⟩
  · rintro ⟨s2, hs2⟩
    by_contra hne
    simp [MetaStore.update, hne] at hs2
  · intro h
    exact ⟨{ snapshot := { epoch := store.snapshot.epoch + 1,
                           dbs := m store.snapshot.dbs } },
           by simp [MetaStore.update, h]⟩
  · intro s2 hs2
    by_cases h : ee = store.snapshot.epoch
    · simp [MetaStore.update, h] at hs2
      rw [← hs2]
    · simp [MetaStore.update, h] at hs2
  · intro hne
    simp [MetaStore.update, hne]

/-- Concrete store at epoch 5 for the CAS witness. -/
def cexStore : MetaStore := { snapshot := { epoch := 5, dbs := [] } }

theorem metastore_update_cas_w :
    (({ snapshot := { epoch := 6, dbs := [] } } : MetaStore).snapshot.epoch =
      cexStore.snapshot.epoch + 1) ∧
    cexStore.update 4 id = Except.error MetaStoreError.StaleEpoch :=
  ⟨(metastore_update_cas cexStore id 5).2.1
      { snapshot := { epoch := 6, dbs := [] } } rfl,
   (metastore_update_cas cexStore id 4).2.2 (by decide)⟩

/-- C1: in a scan-and-delete iteration whose scan reply parses, the DEL
request contains exactly the keys of the reply whose slot is not inside the
retained slot ranges (every key inside some range is excluded), and when
the filtered set is empty no DEL request is issued at all. -/
theorem scan_and_delete_filters_exact_keys :
    ∀ (ranges : SlotRangeArray) (idx cnt : Nat) (client : RedisClientModel)
      (r : Resp) (sresp : ScanResponse),
      client (scanCmd idx cnt) = Except.ok r →
      ScanResponse.parse_scan r = some sresp →
      (sresp.keys.filter (fun k => ! ranges.is_key_inside k) = [] →
        (scan_and_delete_keys_impl ranges idx cnt client).1 =
          [scanCmd idx cnt]) ∧
      (sresp.keys.filter (fun k => ! ranges.is_key_inside k) ≠ [] →
        (scan_and_delete_keys_impl ranges idx cnt client).1 =
          [scanCmd idx cnt,
           delCmd (sresp.keys.filter (fun k => ! ranges.is_key_inside k))]) ∧
      (∀ k, k ∈ sresp.keys.filter (fun k => ! ranges.is_key_inside k) ↔
        (k ∈ sresp.keys ∧ ranges.is_key_inside k = false)) := by
  intro ranges idx cnt client r sresp h1 h2
  refine ⟨?_, ?_, ?_⟩
  · intro hemp
    simp only [scan_and_delete_keys_impl, h1, h2, hemp]
    rfl
  · intro hne
    have hne2 : (sresp.keys.filter
        (fun k => ! ranges.is_key_inside k)).isEmpty = false := by
      cases hf : sresp.keys.filter (fun k => ! ranges.is_key_inside k) with
      | nil => exact absurd hf hne
      | cons a l => rfl
    simp only [scan_and_delete_keys_impl, h1, h2, hne2, Bool.false_eq_true,
      if_false]
    split <;> rfl
  · intro k
    simp [List.mem_filter]

/-- Ranges covering slot 12706 (the slot of key k1) but not slot 449 (the
slot of key k2), for the Scenario B witness. -/
def cexRangesB : SlotRangeArray := { ranges := [(12700, 12710)] }

/-- Scan reply: cursor 0 and the two keys k1 ([107, 49]) and k2
([107, 50]). -/
def cexScanReplyB : Resp :=
  Resp.Arr (some [Resp.Bulk (some [48]),
    Resp.Arr (some [Resp.Bulk (some [107, 49]),
                    Resp.Bulk (some [107, 50])])])

/-- Client for Scenario B: answers the scan with cexScanReplyB and any
other command with an integer reply. -/
def cexClientScenarioB : RedisClientModel := fun cmd =>
  if cmd = scanCmd 0 10 then Except.ok cexScanReplyB
  else Except.ok (Resp.Integer [49])

set_option maxRecDepth 8192 in
theorem scan_and_delete_filters_exact_keys_w :
    (scan_and_delete_keys_impl cexRangesB 0 10 cexClientScenarioB).1 =
      [scanCmd 0 10, delCmd [[107, 50]]] := by
  have h := scan_and_delete_filters_exact_keys cexRangesB 0 10
    cexClientScenarioB cexScanReplyB
    { next_index := 0, keys := [[107, 49], [107, 50]] } rfl rfl
  have h2 := h.2.1 (by decide)
  rw [h2]
  decide

/-- C7: within one scan-and-delete attempt, an unparsable scan reply fails
the attempt with InvalidReply, an error-typed DEL reply fails the attempt
with InvalidReply, and any non-error DEL reply lets the attempt succeed
with the parsed next cursor. -/
theorem scan_delete_error_handling :
    ∀ (ranges : SlotRangeArray) (idx cnt : Nat) (client : RedisClientModel),
      (∀ r, client (scanCmd idx cnt) = Except.ok r →
        ScanResponse.parse_scan r = none →
        (scan_and_delete_keys_impl ranges idx cnt client).2 =
          Except.error RedisClientError.InvalidReply) ∧
      (∀ r sresp err, client (scanCmd idx cnt) = Except.ok r →
        ScanResponse.parse_scan r = some sresp →
        client (delCmd (sresp.keys.filter
            (fun k => ! ranges.is_key_inside k))) =
          Except.ok (Resp.Error err) →
        sresp.keys.filter (fun k => ! ranges.is_key_inside k) ≠ [] →
        (scan_and_delete_keys_impl ranges idx cnt client).2 =
          Except.error RedisClientError.InvalidReply) ∧
      (∀ r sresp dr, client (scanCmd idx cnt) = Except.ok r →
        ScanResponse.parse_scan r = some sresp →
        sresp.keys.filter (fun k => ! ranges.is_key_inside k) ≠ [] →
        client (delCmd (sresp.keys.filter
            (fun k => ! ranges.is_key_inside k))) = Except.ok dr →
        (∀ e2, dr ≠ Resp.Error e2) →
        (scan_and_delete_keys_impl ranges idx cnt client).2 =
          Except.ok (ranges, sresp.next_index)) := by
  intro ranges idx cnt client
  refine ⟨?_, ?_, ?_⟩
  · intro r h1 h2
    simp only [scan_and_delete_keys_impl, h1, h2]
  · intro r sresp err h1 h2 hdel hne
    have hne2 : (sresp.keys.filter
        (fun k => ! ranges.is_key_inside k)).isEmpty = false := by
      cases hf : sresp.keys.filter (fun k => ! ranges.is_key_inside k) with
      | nil => exact absurd hf hne
      | cons a l => rfl
    simp only [scan_and_delete_keys_impl, h1, h2, hne2, Bool.false_eq_true,
      if_false, hdel]
  · intro r sresp dr h1 h2 hne hdel hnoterr
    have hne2 : (sresp.keys.filter
        (fun k => ! ranges.is_key_inside k)).isEmpty = false := by
      cases hf : sresp.keys.filter (fun k => ! ranges.is_key_inside k) with
      | nil => exact absurd hf hne
      | cons a l => rfl
    simp only [scan_and_delete_keys_impl, h1, h2, hne2, Bool.false_eq_true,
      if_false, hdel]

/-- Client whose scan reply is an integer and therefore unparsable. -/
def cexClientBadReply : RedisClientModel := fun _ =>
  Except.ok (Resp.Integer [49])

/-- Scan reply with cursor 0 and the single key [107]. -/
def cexScanReplyOneKey : Resp :=
  Resp.Arr (some [Resp.Bulk (some [48]),
    Resp.Arr (some [Resp.Bulk (some [107])])])

/-- Client answering the scan with cexScanReplyOneKey and every other
command (in particular the DEL) with an error reply. -/
def cexClientDelError : RedisClientModel := fun cmd =>
  if cmd = scanCmd 0 10 then Except.ok cexScanReplyOneKey
  else Except.ok (Resp.Error [69])

/-- Client answering the scan with cexScanReplyOneKey and every other
command (in particular the DEL) with an integer reply. -/
def cexClientDelOk : RedisClientModel := fun cmd =>
  if cmd = scanCmd 0 10 then Except.ok cexScanReplyOneKey
  else Except.ok (Resp.Integer [49])

/-- Slot range array with no ranges: no key is inside it. -/
def emptyRanges : SlotRangeArray := { ranges := [] }

theorem scan_delete_error_handling_w :
    (scan_and_delete_keys_impl emptyRanges 0 10 cexClientBadReply).2 =
      Except.error RedisClientError.InvalidReply ∧
    (scan_and_delete_keys_impl emptyRanges 0 10 cexClientDelError).2 =
      Except.error RedisClientError.InvalidReply ∧
    (scan_and_delete_keys_impl emptyRanges 0 10 cexClientDelOk).2 =
      Except.ok (emptyRanges, 0) := by
  refine ⟨?_, ?_, ?_⟩
  · exact (scan_delete_error_handling emptyRanges 0 10 cexClientBadReply).1
      (Resp.Integer [49]) rfl rfl
  · exact (scan_delete_error_handling emptyRanges 0 10 cexClientDelError).2.1
      cexScanReplyOneKey { next_index := 0, keys := [[107]] } [69]
      rfl rfl rfl (by decide)
  · exact (scan_delete_error_handling emptyRanges 0 10 cexClientDelOk).2.2
      cexScanReplyOneKey { next_index := 0, keys := [[107]] }
      (Resp.Integer [49]) rfl rfl (by decide) rfl
      (fun e2 h => Resp.noConfusion h)

/-- C8: every scan-and-delete iteration issues SCAN cursor COUNT scan_count
as its first request; the initial loop state built for a new task carries
cursor 0; a successful iteration returns the slot ranges paired with the
next cursor parsed from the scan reply; and the driver invokes the step on
exactly the state a successful step returned, so the parsed cursor is used
by the next iteration. -/
theorem scan_request_and_cursor :
    (∀ (ranges : SlotRangeArray) (idx cnt : Nat) (client : RedisClientModel),
      ((scan_and_delete_keys_impl ranges idx cnt client).1).head? =
        some (scanCmd idx cnt)) ∧
    (∀ (addr : String) (s : List SlotRange),
      (DeleteKeysTask.new addr s).fut =
        some ({ ranges := s.map (fun r => (r.start, r.stop)) }, 0)) ∧
    (∀ (ranges : SlotRangeArray) (idx cnt : Nat) (client : RedisClientModel)
       (r : Resp) (sresp : ScanResponse) (out : SlotRangeArray × Nat),
      client (scanCmd idx cnt) = Except.ok r →
      ScanResponse.parse_scan r = some sresp →
      (scan_and_delete_keys_impl ranges idx cnt client).2 = Except.ok out →
      out = (ranges, sresp.next_index)) ∧
    (∀ (fuel : Nat) (s s2 : SlotRangeArray × Nat)
       (step : SlotRangeArray × Nat →
         Except RedisClientError (SlotRangeArray × Nat)),
      step s = Except.ok s2 →
      driverStates (fuel + 1) s step = s :: driverStates fuel s2 step) := by
  refine ⟨?_, ?_, ?_, ?_⟩
  · intro ranges idx cnt client
    simp only [scan_and_delete_keys_impl]
    split
    · rfl
    · split
      · rfl
      · split
        · rfl
        · split <;> rfl
  · intro addr s
    rfl
  · intro ranges idx cnt client r sresp out h1 h2 h3
    simp only [scan_and_delete_keys_impl, h1, h2] at h3
    by_cases hemp : (sresp.keys.filter
        (fun k => ! ranges.is_key_inside k)).isEmpty
    · simp only [hemp, if_true] at h3
      exact (Except.ok.inj h3).symm
    · simp only [hemp, if_false, Bool.false_eq_true] at h3
      cases hdel : client (delCmd (sresp.keys.filter
          (fun k => ! ranges.is_key_inside k))) with
      | error e =>
        rw [hdel] at h3
        exact absurd h3 (by simp)
      | ok dr =>
        rw [hdel] at h3
        cases dr with
        | Error e2 => exact absurd h3 (by simp)
        | Simple s2 => exact (Except.ok.inj h3).symm
        | Integer n2 => exact (Except.ok.inj h3).symm
        | Bulk b2 => exact (Except.ok.inj h3).symm
        | Arr l2 => exact (Except.ok.inj h3).symm
  · intro fuel s s2 step h
    simp only [driverStates, h]

theorem scan_request_and_cursor_w :
    ((emptyRanges, 0) : SlotRangeArray × Nat) = (emptyRanges, 0) ∧
    driverStates (0 + 1) ((emptyRanges, 5) : SlotRangeArray × Nat)
        (fun _ => (Except.ok (emptyRanges, 7) :
          Except RedisClientError (SlotRangeArray × Nat))) =
      (emptyRanges, 5) :: driverStates 0 (emptyRanges, 7)
        (fun _ => (Except.ok (emptyRanges, 7) :
          Except RedisClientError (SlotRangeArray × Nat))) := by
  constructor
  · exact scan_request_and_cursor.2.2.1 emptyRanges 0 10 cexClientDelOk
      cexScanReplyOneKey { next_index := 0, keys := [[107]] }
      (emptyRanges, 0) rfl rfl rfl
  · exact scan_request_and_cursor.2.2.2 0 (emptyRanges, 5) (emptyRanges, 7)
      (fun _ => Except.ok (emptyRanges, 7)) rfl

/-- Old task used in the rebuild counterexamples: its future slot has
already been taken (a scan in progress). -/
def cexOldTask : DeleteKeysTask :=
  { address := "a", slot_ranges := { ranges := [(0, 100)] }, fut := none }

/-- C3 counterexample: an old task whose (db, address) pair is still
present in the new ownership view, so carry-forward as stated should keep
it, yet the same pair also occurs in left_slots_after_change and the add
phase (which runs after the copy phase) overwrites the carried entry with
the freshly created task. -/
theorem update_task_map_carry_cex :
    lookup2 (update_from_old_task_map
        [("db", [("a", cexOldTask)])]
        { db_map := [("db", ["a"])] }
        [("db", [("a", [{ start := 0, stop := 50 }])])]).1 "db" "a" ≠
      some cexOldTask ∧
    lookup2 (update_from_old_task_map
        [("db", [("a", cexOldTask)])]
        { db_map := [("db", ["a"])] }
        [("db", [("a", [{ start := 0, stop := 50 }])])]).1 "db" "a" =
      some (DeleteKeysTask.new "a" [{ start := 0, stop := 50 }]) := by
  constructor <;> decide

/-- C3 amended: in the rebuilt map, (1) every old task whose (db, address)
pair is still present in the new ownership view and does not appear in
left_slots_after_change is carried over as the same shared task; (2) for
every (db, address, slots) triple of left_slots_after_change a fresh task
is created, stored in the map, and returned in the new-task list; (3)
every other old entry is absent from the new map.  The amendment restricts
carry-forward in (1) to pairs outside the delta: a pair also present in
left_slots_after_change ends up with the fresh task instead (see the
counterexample). -/
theorem update_task_map_rebuild :
    ∀ (old : TaskMap) (ldb : HostDBMap)
      (left : List (DBName × List (String × List SlotRange)))
      (db : DBName) (a : String),
      ((old.map Prod.fst).Nodup) →
      (∀ p ∈ old, ((p.2.map Prod.fst : List String).Nodup)) →
      ((left.map Prod.fst).Nodup) →
      (∀ p ∈ left, ((p.2.map Prod.fst : List String).Nodup)) →
      (∀ nodes t ns, (db, nodes) ∈ old → lookupAL nodes a = some t →
        lookupAL ldb.get_map db = some ns → a ∈ ns →
        (∀ nodes2, (db, nodes2) ∈ left → lookupAL nodes2 a = none) →
        lookup2 (update_from_old_task_map old ldb left).1 db a = some t) ∧
      (∀ nodes2 slots, (db, nodes2) ∈ left →
        lookupAL nodes2 a = some slots →
        lookup2 (update_from_old_task_map old ldb left).1 db a =
          some (DeleteKeysTask.new a slots) ∧
        DeleteKeysTask.new a slots ∈
          (update_from_old_task_map old ldb left).2) ∧
      ((∀ nodes2, (db, nodes2) ∈ left → lookupAL nodes2 a = none) →
       (∀ nodes t, (db, nodes) ∈ old → lookupAL nodes a = some t →
          lookupAL ldb.get_map db = none ∨
          (∃ ns, lookupAL ldb.get_map db = some ns ∧ a ∉ ns)) →
       lookup2 (update_from_old_task_map old ldb left).1 db a = none) := by
  intro old ldb left db a hndO hndOI hndL hndLI
  refine ⟨?_, ?_, ?_⟩
  · intro nodes t ns hmemO ht hl ha hleftnone
    exact (addAux_preserve hleftnone _).trans
      (copyAux_found hndO hmemO (hndOI _ hmemO) hl ha ht [])
  · intro nodes2 slots hmemL hs
    exact ⟨addAux_found hndL hmemL (hndLI _ hmemL) hs _,
           addAux_tasks_mem hmemL hs _⟩
  · intro hleftnone holdcase
    refine (addAux_preserve hleftnone _).trans ?_
    have H : ∀ nodes, (db, nodes) ∈ old → ∀ ns,
        lookupAL ldb.get_map db = some ns →
        a ∉ ns ∨ lookupAL nodes a = none := by
      intro nodes hm ns hl
      cases hta : lookupAL nodes a with
      | none => exact Or.inr rfl
      | some t =>
        rcases holdcase nodes t hm hta with hnone | ⟨ns2, hns2, hnotin⟩
        · rw [hnone] at hl
          cases hl
        · rw [hns2] at hl
          injection hl with he
          exact Or.inl (he ▸ hnotin)
    exact (copyAux_preserve H []).trans rfl

theorem update_task_map_rebuild_w :
    lookup2 (update_from_old_task_map
        [("db", [("a", cexOldTask)])]
        { db_map := [("db", ["a"])] }
        [("db2", [("b", [{ start := 0, stop := 50 }])])]).1 "db" "a" =
      some cexOldTask ∧
    lookup2 (update_from_old_task_map
        [("db", [("a", cexOldTask)])]
        { db_map := [("db", ["a"])] }
        [("db2", [("b", [{ start := 0, stop := 50 }])])]).1 "db2" "b" =
      some (DeleteKeysTask.new "b" [{ start := 0, stop := 50 }]) := by
  constructor
  · refine (update_task_map_rebuild
      [("db", [("a", cexOldTask)])] { db_map := [("db", ["a"])] }
      [("db2", [("b", [{ start := 0, stop := 50 }])])] "db" "a"
      (by decide)
      (by intro p hp; simp only [List.mem_singleton] at hp; subst hp; decide)
      (by decide)
      (by intro p hp; simp only [List.mem_singleton] at hp; subst hp; decide)).1
      [("a", cexOldTask)] cexOldTask ["a"] (by decide) rfl rfl (by decide) ?_
    intro nodes2 hm
    simp only [List.mem_singleton] at hm
    have hdb : "db" = "db2" := congrArg Prod.fst hm
    exact absurd hdb (by decide)
  · exact ((update_task_map_rebuild
      [("db", [("a", cexOldTask)])] { db_map := [("db", ["a"])] }
      [("db2", [("b", [{ start := 0, stop := 50 }])])] "db2" "b"
      (by decide)
      (by intro p hp; simp only [List.mem_singleton] at hp; subst hp; decide)
      (by decide)
      (by intro p hp; simp only [List.mem_singleton] at hp; subst hp;
          decide)).2.1
      [("b", [{ start := 0, stop := 50 }])] [{ start := 0, stop := 50 }]
      (by decide) rfl).1

/-- C10: when a (db, address) pair is both eligible for carry-forward (its
pair is still present in the new ownership view) and present in
left_slots_after_change, the rebuilt map holds the freshly created task for
that pair, not the carried old one: the add phase runs after the copy
phase and its insert overwrites the carried entry; the fresh task is also
returned in the new-task list. -/
theorem new_task_overwrites_carried :
    ∀ (old : TaskMap) (ldb : HostDBMap)
      (left : List (DBName × List (String × List SlotRange)))
      (db : DBName) (a : String) (nodes : List (String × DeleteKeysTask))
      (t : DeleteKeysTask) (ns : List String)
      (nodes2 : List (String × List SlotRange)) (slots : List SlotRange),
      ((left.map Prod.fst).Nodup) →
      (∀ p ∈ left, ((p.2.map Prod.fst : List String).Nodup)) →
      (db, nodes) ∈ old → lookupAL nodes a = some t →
      lookupAL ldb.get_map db = some ns → a ∈ ns →
      (db, nodes2) ∈ left → lookupAL nodes2 a = some slots →
      lookup2 (update_from_old_task_map old ldb left).1 db a =
        some (DeleteKeysTask.new a slots) ∧
      (t ≠ DeleteKeysTask.new a slots →
        lookup2 (update_from_old_task_map old ldb left).1 db a ≠ some t) ∧
      DeleteKeysTask.new a slots ∈ (update_from_old_task_map old ldb left).2 := by
  intro old ldb left db a nodes t ns nodes2 slots hndL hndLI hmemO ht hl ha
    hmemL hs
  have h1 : lookup2 (update_from_old_task_map old ldb left).1 db a =
      some (DeleteKeysTask.new a slots) :=
    addAux_found hndL hmemL (hndLI _ hmemL) hs _
  refine ⟨h1, ?_, addAux_tasks_mem hmemL hs _⟩
  intro hne h2
  rw [h1] at h2
  exact hne (Option.some.inj h2).symm

theorem new_task_overwrites_carried_w :
    lookup2 (update_from_old_task_map
        [("db", [("a", cexOldTask)])]
        { db_map := [("db", ["a"])] }
        [("db", [("a", [{ start := 0, stop := 50 }])])]).1 "db" "a" =
      some (DeleteKeysTask.new "a" [{ start := 0, stop := 50 }]) ∧
    lookup2 (update_from_old_task_map
        [("db", [("a", cexOldTask)])]
        { db_map := [("db", ["a"])] }
        [("db", [("a", [{ start := 0, stop := 50 }])])]).1 "db" "a" ≠
      some cexOldTask := by
  have h := new_task_overwrites_carried
    [("db", [("a", cexOldTask)])] { db_map := [("db", ["a"])] }
    [("db", [("a", [{ start := 0, stop := 50 }])])] "db" "a"
    [("a", cexOldTask)] cexOldTask ["a"]
    [("a", [{ start := 0, stop := 50 }])] [{ start := 0, stop := 50 }]
    (by decide)
    (by intro p hp; simp only [List.mem_singleton] at hp; subst hp; decide)
    (by decide) rfl rfl (by decide) (by decide) rfl
  exact ⟨h.1, h.2.1 (by decide)⟩
